import Mathlib

/-!
Shallow embedding of the oracle price-feed backend (src/backend/src), covering
the price aggregator (`price_aggregator.rs`) and the cached price fetcher
(`cache.rs`).

Modelling conventions:
* `rust_decimal::Decimal` values are modelled as exact rationals `ℚ`.  Every
  Decimal operation appearing in the embedded code (add, sub, abs, compare,
  divide, multiply by small constants) is exact on the values involved.
* `Decimal::to_u64` (`num_traits::ToPrimitive`) returns `None` for negative
  values and for values whose truncation does not fit in 64 bits, otherwise
  the truncation toward zero; `to_u64` below models exactly that (for
  non-negative rationals truncation equals the floor).
* Rust `u64` counters are modelled as `ℕ`, `i64` timestamps as `ℤ`.
* Fallible Rust functions returning `Result<T, OracleError>` become
  `Except OracleError T`.
* The `async` oracle / cache calls are external I/O: the embedding takes their
  results as explicit arguments (`pythRes`, `sbRes`, `readRes`, ...), and pure
  control flow after the awaits is embedded directly.
-/

namespace Oracle

/-- Oracle source identifier (`types.rs`, enum `PriceSource`). -/
inductive PriceSource
  | Pyth
  | Switchboard
  | Aggregate
deriving DecidableEq, Repr

/-- A price reading (`types.rs`, struct `PriceData`); `Decimal` fields are
modelled as `ℚ`, the `i64` timestamp as `ℤ`. -/
structure PriceData where
  symbol : String
  price : ℚ
  confidence : ℚ
  timestamp : ℤ
  source : PriceSource
deriving DecidableEq, Repr

/-- Error taxonomy (`error.rs`, enum `OracleError`); payloads of the wrapped
library errors are collapsed to their display strings. -/
inductive OracleError
  | StalePrice (msg : String)
  | HighConfidence (msg : String)
  | PriceDeviation (msg : String)
  | NoPriceData (msg : String)
  | SolanaError (msg : String)
  | DatabaseError (msg : String)
  | RedisError (msg : String)
  | ParseError (msg : String)
deriving DecidableEq, Repr

/-- Aggregator tunables (`config.rs`, struct `OracleConfig`). -/
structure OracleConfig where
  max_price_age_seconds : ℤ
  max_confidence_bps : ℕ
  max_deviation_bps : ℕ
deriving DecidableEq, Repr

/-- Model of `rust_decimal`'s `Decimal::to_u64`: `None` on negative input or
when the truncated value exceeds `u64`, otherwise the truncation toward zero
(equal to the floor on the non-negative branch). -/
def to_u64 (q : ℚ) : Option ℕ :=
  if q < 0 then none
  else if ⌊q⌋ < 2 ^ 64 then some ⌊q⌋.toNat
  else none

/-- `PriceAggregator::calculate_confidence_bps` (`price_aggregator.rs`
lines 255-268): `0` when the price is zero, otherwise
`(confidence / price) * 10000` converted with `to_u64`, with a `ParseError`
when the conversion fails. -/
def calculate_confidence_bps (price : PriceData) : Except OracleError ℕ :=
  if price.price = 0 then .ok 0
  else
    match to_u64 (price.confidence / price.price * 10000) with
    | some confidence_bps => .ok confidence_bps
    | none => .error (.ParseError ("Failed to convert confidence to u64"))

/-- `PriceAggregator::validate_prices` (`price_aggregator.rs` lines 205-237):
drop stale readings (`now - timestamp > max_price_age_seconds`), drop readings
whose `confidence_bps` exceeds `max_confidence_bps`, propagate a confidence
conversion error; `now` (read from the system clock in the source) is an
explicit argument. -/
def validate_prices (cfg : OracleConfig) (now : ℤ) :
    List PriceData → Except OracleError (List PriceData)
  | [] => .ok []
  | price :: rest =>
    if now - price.timestamp > cfg.max_price_age_seconds then
      validate_prices cfg now rest
    else
      match calculate_confidence_bps price with
      | .error e => .error e
      | .ok confidence_bps =>
        if confidence_bps > cfg.max_confidence_bps then
          validate_prices cfg now rest
        else
          match validate_prices cfg now rest with
          | .error e => .error e
          | .ok valid => .ok (price :: valid)

/-- `PriceAggregator::calculate_deviation` (`price_aggregator.rs`
lines 397-411): `0` when the reference price is zero, otherwise
`|price1 - price2| / price2 * 10000` converted with `to_u64`. -/
def calculate_deviation (price1 price2 : ℚ) : Except OracleError ℕ :=
  if price2 = 0 then .ok 0
  else
    match to_u64 (|price1 - price2| / price2 * 10000) with
    | some deviation_bps => .ok deviation_bps
    | none => .error (.ParseError ("Failed to convert deviation to u64"))

/-- `PriceAggregator::validate_consensus` (`price_aggregator.rs`
lines 369-389): fail with `PriceDeviation` at the first reading whose
deviation from the consensus exceeds `max_deviation_bps`. -/
def validate_consensus (cfg : OracleConfig) (prices : List PriceData)
    (consensus : PriceData) : Except OracleError Unit :=
  match prices with
  | [] => .ok ()
  | price :: rest =>
    match calculate_deviation price.price consensus.price with
    | .error e => .error e
    | .ok deviation =>
      if deviation > cfg.max_deviation_bps then
        .error (.PriceDeviation
          ("Price deviates " ++ toString deviation ++ " bps from consensus"))
      else
        validate_consensus cfg rest consensus

/-- Ordering used by `sorted_prices.sort_by(|a, b| a.price.cmp(&b.price))`. -/
def priceLe (a b : PriceData) : Prop := a.price ≤ b.price

instance : DecidableRel priceLe :=
  fun a b => inferInstanceAs (Decidable (a.price ≤ b.price))

instance : IsTotal PriceData priceLe :=
  ⟨fun a b => le_total a.price b.price⟩

instance : IsTrans PriceData priceLe :=
  ⟨fun _ _ _ hab hbc => le_trans hab hbc⟩

/-- `prices.iter().map(|p| p.timestamp).max().unwrap_or(0)` from
`calculate_consensus`. -/
def latest_timestamp (prices : List PriceData) : ℤ :=
  ((prices.map (fun p => p.timestamp)).max?).getD 0

/-- `PriceAggregator::calculate_consensus` (`price_aggregator.rs`
lines 296-333): stable sort by price (Rust's stable `sort_by` is modelled by
the stable `List.insertionSort`), middle element for an odd count, mean of the
two middle elements for an even count; symbol of the first input reading,
latest input timestamp, source `Aggregate`. -/
def calculate_consensus (prices : List PriceData) : Except OracleError PriceData :=
  match prices with
  | [] => .error (.NoPriceData ("No prices to aggregate"))
  | p0 :: _ =>
    let sorted_prices := List.insertionSort priceLe prices
    let len := sorted_prices.length
    let pair :=
      if len % 2 = 1 then
        let mid := sorted_prices.getD (len / 2) p0
        (mid.price, mid.confidence)
      else
        let mid1 := sorted_prices.getD (len / 2 - 1) p0
        let mid2 := sorted_prices.getD (len / 2) p0
        ((mid1.price + mid2.price) / 2, (mid1.confidence + mid2.confidence) / 2)
    .ok { symbol := p0.symbol
          price := pair.1
          confidence := pair.2
          timestamp := latest_timestamp prices
          source := .Aggregate }

/-- The fetched price list built by `get_consensus_price` steps 1-2: a
successful Pyth reading followed by a successful Switchboard reading, errors
collected separately (`price_aggregator.rs` lines 134-159). -/
def oracle_results (pythRes sbRes : Except OracleError PriceData) : List PriceData :=
  (match pythRes with | .ok p => [p] | .error _ => []) ++
  (match sbRes with | .ok p => [p] | .error _ => [])

/-- `PriceAggregator::get_consensus_price` (`price_aggregator.rs`
lines 130-192) after the two oracle awaits, whose results are the explicit
arguments `pythRes` and `sbRes`: empty fetch fails `NoPriceData`, validation
errors propagate, an empty surviving list fails `NoPriceData`, then median
consensus and the deviation gate. -/
def get_consensus_price (cfg : OracleConfig) (now : ℤ) (symbol : String)
    (pythRes sbRes : Except OracleError PriceData) : Except OracleError PriceData :=
  let prices := oracle_results pythRes sbRes
  if prices.isEmpty then
    .error (.NoPriceData ("All oracles failed for " ++ symbol))
  else
    match validate_prices cfg now prices with
    | .error e => .error e
    | .ok valid_prices =>
      if valid_prices.isEmpty then
        .error (.NoPriceData ("No valid prices after validation for " ++ symbol))
      else
        match calculate_consensus valid_prices with
        | .error e => .error e
        | .ok consensus =>
          match validate_consensus cfg valid_prices consensus with
          | .error e => .error e
          | .ok _ => .ok consensus

/-- `CachedPriceFetcher::get_price_with_cache` (`cache.rs` lines 402-425) with
the three awaited effects as explicit results: `readRes` is the result of
`cache.get_price`, `fetchRes` the result of `fetch_fn`, `writeRes` the result
of `cache.set_price` on the produced reading.  Each `?` in the source
propagates the error.  The boolean records whether `fetch_fn` was invoked. -/
def get_price_with_cache (readRes : Except OracleError (Option PriceData))
    (fetchRes : Except OracleError PriceData)
    (writeRes : PriceData → Except OracleError Unit) :
    Except OracleError PriceData × Bool :=
  match readRes with
  | .error e => (.error e, false)
  | .ok (some cached) => (.ok cached, false)
  | .ok none =>
    match fetchRes with
    | .error e => (.error e, true)
    | .ok price =>
      match writeRes price with
      | .error e => (.error e, true)
      | .ok _ => (.ok price, true)

/-- `get_price_with_cache` run against a reliable in-memory cache holding
`st`: returns the call result, the cache contents afterwards, and whether
`fetch_fn` was invoked.  This is the source's control flow with a cache
backend that never fails. -/
def get_price_with_cache_run (st : Option PriceData)
    (fetchRes : Except OracleError PriceData) :
    Except OracleError PriceData × Option PriceData × Bool :=
  match st with
  | some cached => (.ok cached, st, false)
  | none =>
    match fetchRes with
    | .error e => (.error e, none, true)
    | .ok price => (.ok price, some price, true)

/-- Two `get_price_with_cache` calls for the same symbol, serialized in
arrival order (as the `api.rs` handlers do by holding the coarse
`tokio::Mutex` across the whole call), threading the cache state; returns how
many times a producer was invoked. -/
def fetch_invocations_two_calls
    (fetch1 fetch2 : Except OracleError PriceData) : ℕ :=
  let r1 := get_price_with_cache_run none fetch1
  let r2 := get_price_with_cache_run r1.2.1 fetch2
  (if r1.2.2 then 1 else 0) + (if r2.2.2 then 1 else 0)

/-- Concrete sample config used by witnesses: the source defaults
(`MAX_PRICE_AGE_SECONDS=30`, `MAX_CONFIDENCE_BPS=100`, `MAX_DEVIATION_BPS=100`). -/
def cfgW : OracleConfig :=
  { max_price_age_seconds := 30, max_confidence_bps := 100, max_deviation_bps := 100 }

/-- Concrete sample reading used by witnesses. -/
def readingW : PriceData :=
  { symbol := "BTC/USD", price := 50000, confidence := 10
    timestamp := 990, source := .Pyth }

/-- Second concrete sample reading used by witnesses. -/
def readingW2 : PriceData :=
  { symbol := "BTC/USD", price := 50100, confidence := 10
    timestamp := 1000, source := .Switchboard }

/-- Consensus of `readingW` and `readingW2`: mean price and confidence, latest
timestamp, source `Aggregate`. -/
def consensusW : PriceData :=
  { symbol := "BTC/USD", price := 50050, confidence := 10
    timestamp := 1000, source := .Aggregate }

/-- Sample reading with price zero. -/
def readingZ : PriceData :=
  { symbol := "ZRO/USD", price := 0, confidence := 5
    timestamp := 990, source := .Pyth }

/-- Sample stale reading (age 100 s against `now = 1000`). -/
def readingStale : PriceData :=
  { symbol := "BTC/USD", price := 50000, confidence := 10
    timestamp := 900, source := .Pyth }

/-- Sample reading with a negative price and positive confidence. -/
def readingNeg : PriceData :=
  { symbol := "BTC/USD", price := -100, confidence := 10
    timestamp := 995, source := .Switchboard }

/-- Sample reading exactly at the staleness bound for `now = 1000`. -/
def readingAge : PriceData :=
  { symbol := "BTC/USD", price := 100, confidence := 1
    timestamp := 970, source := .Pyth }

/-- Sample reading one second past the staleness bound for `now = 1000`. -/
def readingAge1 : PriceData :=
  { symbol := "BTC/USD", price := 100, confidence := 1
    timestamp := 969, source := .Pyth }

/-- Sample reading whose confidence is exactly 100 bps. -/
def readingConfMax : PriceData :=
  { symbol := "BTC/USD", price := 100, confidence := 1
    timestamp := 990, source := .Pyth }

/-- Sample reading whose confidence is exactly 101 bps. -/
def readingConfOver : PriceData :=
  { symbol := "BTC/USD", price := 10000, confidence := 101
    timestamp := 990, source := .Pyth }

/-- Sample reading deviating exactly 100 bps from `consDev`. -/
def readingDevMax : PriceData :=
  { symbol := "BTC/USD", price := 10100, confidence := 1
    timestamp := 990, source := .Pyth }

/-- Sample reading deviating exactly 101 bps from `consDev`. -/
def readingDevOver : PriceData :=
  { symbol := "BTC/USD", price := 10101, confidence := 1
    timestamp := 990, source := .Pyth }

/-- Sample consensus reading used as the deviation reference. -/
def consDev : PriceData :=
  { symbol := "BTC/USD", price := 10000, confidence := 1
    timestamp := 1000, source := .Aggregate }

instance {ε α : Type} [DecidableEq ε] [DecidableEq α] : DecidableEq (Except ε α) := fun x y =>
  match x, y with
  | .ok a, .ok b =>
    if h : a = b then isTrue (by rw [h]) else isFalse (fun hc => by cases hc; exact h rfl)
  | .error e, .error f =>
    if h : e = f then isTrue (by rw [h]) else isFalse (fun hc => by cases hc; exact h rfl)
  | .ok _, .error _ => isFalse (fun hc => by cases hc)
  | .error _, .ok _ => isFalse (fun hc => by cases hc)

theorem to_u64_eq_some (q : ℚ) (n : ℕ) (h1 : (n : ℚ) ≤ q) (h2 : q < (n : ℚ) + 1)
    (hn : (n : ℤ) < 2 ^ 64) : to_u64 q = some n := by
  have h0 : ¬ q < 0 := not_lt.mpr ((Nat.cast_nonneg n).trans h1)
  have hfl : ⌊q⌋ = (n : ℤ) := by
    rw [Int.floor_eq_iff]
    exact ⟨by exact_mod_cast h1, by exact_mod_cast h2⟩
  unfold to_u64
  rw [if_neg h0, hfl, if_pos hn]
  simp

theorem to_u64_of_neg (q : ℚ) (h : q < 0) : to_u64 q = none := by
  unfold to_u64
  rw [if_pos h]

theorem calculate_confidence_bps_eq (p : PriceData) (n : ℕ) (hp : p.price ≠ 0)
    (h1 : (n : ℚ) ≤ p.confidence / p.price * 10000)
    (h2 : p.confidence / p.price * 10000 < (n : ℚ) + 1) (hn : (n : ℤ) < 2 ^ 64) :
    calculate_confidence_bps p = .ok n := by
  unfold calculate_confidence_bps
  rw [if_neg hp, to_u64_eq_some _ n h1 h2 hn]

theorem calculate_deviation_eq (price1 price2 : ℚ) (n : ℕ) (hp : price2 ≠ 0)
    (h1 : (n : ℚ) ≤ |price1 - price2| / price2 * 10000)
    (h2 : |price1 - price2| / price2 * 10000 < (n : ℚ) + 1) (hn : (n : ℤ) < 2 ^ 64) :
    calculate_deviation price1 price2 = .ok n := by
  unfold calculate_deviation
  rw [if_neg hp, to_u64_eq_some _ n h1 h2 hn]

theorem calculate_confidence_bps_error_is_parse (p : PriceData) (e : OracleError)
    (h : calculate_confidence_bps p = .error e) : ∃ s, e = .ParseError s := by
  unfold calculate_confidence_bps at h
  by_cases hz : p.price = 0
  · rw [if_pos hz] at h
    cases h
  · rw [if_neg hz] at h
    cases hto : to_u64 (p.confidence / p.price * 10000) with
    | some v => rw [hto] at h; cases h
    | none =>
      rw [hto] at h
      exact ⟨_, (Except.error.inj h).symm⟩

theorem validate_prices_cons (cfg : OracleConfig) (now : ℤ) (p : PriceData)
    (rest : List PriceData) :
    validate_prices cfg now (p :: rest) =
      if now - p.timestamp > cfg.max_price_age_seconds then validate_prices cfg now rest
      else
        match calculate_confidence_bps p with
        | .error e => .error e
        | .ok confidence_bps =>
          if confidence_bps > cfg.max_confidence_bps then validate_prices cfg now rest
          else
            match validate_prices cfg now rest with
            | .error e => .error e
            | .ok valid => .ok (p :: valid) := rfl

theorem validate_prices_subset (cfg : OracleConfig) (now : ℤ) :
    ∀ (l valid : List PriceData), validate_prices cfg now l = .ok valid →
      ∀ q ∈ valid, q ∈ l := by
  intro l
  induction l with
  | nil =>
    intro valid h q hq
    unfold validate_prices at h
    cases h
    cases hq
  | cons p rest ih =>
    intro valid h q hq
    rw [validate_prices_cons] at h
    by_cases hstale : now - p.timestamp > cfg.max_price_age_seconds
    · rw [if_pos hstale] at h
      exact List.mem_cons_of_mem _ (ih _ h q hq)
    · rw [if_neg hstale] at h
      cases hc : calculate_confidence_bps p with
      | error e => rw [hc] at h; cases h
      | ok cbps =>
        simp only [hc] at h
        by_cases hhi : cbps > cfg.max_confidence_bps
        · rw [if_pos hhi] at h
          exact List.mem_cons_of_mem _ (ih _ h q hq)
        · rw [if_neg hhi] at h
          cases hr : validate_prices cfg now rest with
          | error e => simp only [hr] at h; cases h
          | ok vrest =>
            simp only [hr, Except.ok.injEq] at h
            subst h
            rcases List.mem_cons.mp hq with hq | hq
            · exact hq ▸ List.mem_cons_self _ _
            · exact List.mem_cons_of_mem _ (ih _ hr q hq)

theorem validate_prices_all_stale (cfg : OracleConfig) (now : ℤ) :
    ∀ l : List PriceData, (∀ q ∈ l, now - q.timestamp > cfg.max_price_age_seconds) →
      validate_prices cfg now l = .ok [] := by
  intro l
  induction l with
  | nil => intro _; rfl
  | cons p rest ih =>
    intro h
    rw [validate_prices_cons, if_pos (h p (List.mem_cons_self _ _))]
    exact ih (fun q hq => h q (List.mem_cons_of_mem _ hq))

theorem validate_consensus_cons (cfg : OracleConfig) (p : PriceData)
    (rest : List PriceData) (consensus : PriceData) :
    validate_consensus cfg (p :: rest) consensus =
      match calculate_deviation p.price consensus.price with
      | .error e => .error e
      | .ok deviation =>
        if deviation > cfg.max_deviation_bps then
          .error (.PriceDeviation
            ("Price deviates " ++ toString deviation ++ " bps from consensus"))
        else validate_consensus cfg rest consensus := rfl

theorem validate_consensus_ok_bound (cfg : OracleConfig) (consensus : PriceData) :
    ∀ l : List PriceData, validate_consensus cfg l consensus = .ok () →
      ∀ S ∈ l, ∃ d, calculate_deviation S.price consensus.price = .ok d ∧
        d ≤ cfg.max_deviation_bps := by
  intro l
  induction l with
  | nil => intro _ S hS; cases hS
  | cons p rest ih =>
    intro h S hS
    rw [validate_consensus_cons] at h
    cases hd : calculate_deviation p.price consensus.price with
    | error e => rw [hd] at h; cases h
    | ok d =>
      simp only [hd] at h
      by_cases hgt : d > cfg.max_deviation_bps
      · rw [if_pos hgt] at h; cases h
      · rw [if_neg hgt] at h
        rcases List.mem_cons.mp hS with hS | hS
        · exact ⟨d, hS ▸ hd, le_of_not_lt hgt⟩
        · exact ih h S hS

theorem validate_consensus_exceeded (cfg : OracleConfig) (consensus : PriceData) :
    ∀ l : List PriceData,
      (∀ S ∈ l, ∃ d, calculate_deviation S.price consensus.price = .ok d) →
      (∃ S ∈ l, ∃ d, calculate_deviation S.price consensus.price = .ok d ∧
        cfg.max_deviation_bps < d) →
      ∃ s, validate_consensus cfg l consensus = .error (.PriceDeviation s) := by
  intro l
  induction l with
  | nil =>
    intro _ hex
    rcases hex with ⟨S, hS, _⟩
    cases hS
  | cons p rest ih =>
    intro hall hex
    rw [validate_consensus_cons]
    rcases hall p (List.mem_cons_self _ _) with ⟨d, hd⟩
    simp only [hd]
    by_cases hgt : d > cfg.max_deviation_bps
    · rw [if_pos hgt]
      exact ⟨_, rfl⟩
    · rw [if_neg hgt]
      rcases hex with ⟨S, hS, dS, hdS, hdSgt⟩
      rcases List.mem_cons.mp hS with hSp | hSrest
      · subst hSp
        rw [hd] at hdS
        cases hdS
        exact absurd hdSgt hgt
      · exact ih (fun S hS => hall S (List.mem_cons_of_mem _ hS)) ⟨S, hSrest, dS, hdS, hdSgt⟩

theorem latest_timestamp_spec (l : List PriceData) (hne : l ≠ []) :
    latest_timestamp l ∈ l.map (fun p => p.timestamp) ∧
    ∀ t ∈ l.map (fun p => p.timestamp), t ≤ latest_timestamp l := by
  unfold latest_timestamp
  cases hm : (l.map (fun p => p.timestamp)).max? with
  | none =>
    rw [List.max?_eq_none_iff] at hm
    exact absurd (List.map_eq_nil_iff.mp hm) hne
  | some m =>
    haveI : Std.Antisymm ((· : ℤ) ≤ ·) := ⟨fun h1 h2 => le_antisymm h1 h2⟩
    have hspec := (List.max?_eq_some_iff (fun a : ℤ => le_refl a)
      (fun a b : ℤ => max_choice a b)
      (fun _ _ _ : ℤ => max_le_iff)).mp hm
    simpa using hspec

theorem calculate_consensus_ok_inv (l : List PriceData) (c : PriceData)
    (h : calculate_consensus l = .ok c) :
    l ≠ [] ∧ c.source = .Aggregate ∧ c.timestamp = latest_timestamp l ∧
      ∃ p0 t, l = p0 :: t ∧ c.symbol = p0.symbol := by
  cases l with
  | nil => cases h
  | cons p0 t =>
    unfold calculate_consensus at h
    cases h
    exact ⟨List.cons_ne_nil _ _, rfl, rfl, p0, t, rfl, rfl⟩

theorem get_consensus_price_ok_inv (cfg : OracleConfig) (now : ℤ) (symbol : String)
    (pythRes sbRes : Except OracleError PriceData) (r : PriceData)
    (h : get_consensus_price cfg now symbol pythRes sbRes = .ok r) :
    ∃ valid, validate_prices cfg now (oracle_results pythRes sbRes) = .ok valid ∧
      valid ≠ [] ∧ calculate_consensus valid = .ok r ∧
      validate_consensus cfg valid r = .ok () := by
  unfold get_consensus_price at h
  by_cases hempty : (oracle_results pythRes sbRes).isEmpty
  · rw [if_pos hempty] at h
    cases h
  · rw [if_neg hempty] at h
    cases hv : validate_prices cfg now (oracle_results pythRes sbRes) with
    | error e => rw [hv] at h; cases h
    | ok valid =>
      simp only [hv] at h
      by_cases hvempty : valid.isEmpty
      · rw [if_pos hvempty] at h
        cases h
      · rw [if_neg hvempty] at h
        cases hc : calculate_consensus valid with
        | error e => simp only [hc] at h; cases h
        | ok consensus =>
          simp only [hc] at h
          cases hvc : validate_consensus cfg valid consensus with
          | error e => simp only [hvc] at h; cases h
          | ok u =>
            simp only [hvc, Except.ok.injEq] at h
            subst h
            cases u
            exact ⟨valid, rfl, fun hn => by simp [hn] at hvempty, hc, hvc⟩

theorem calculate_confidence_bps_of_neg (p : PriceData) (hneg : p.price < 0)
    (hconf : 0 < p.confidence) :
    calculate_confidence_bps p = .error (.ParseError ("Failed to convert confidence to u64")) := by
  have hz : p.price ≠ 0 := ne_of_lt hneg
  have hr : p.confidence / p.price * 10000 < 0 :=
    mul_neg_of_neg_of_pos (div_neg_of_pos_of_neg hconf hneg) (by norm_num)
  unfold calculate_confidence_bps
  rw [if_neg hz, to_u64_of_neg _ hr]

theorem validate_prices_parse_of_neg (cfg : OracleConfig) (now : ℤ) (p : PriceData)
    (hfresh : now - p.timestamp ≤ cfg.max_price_age_seconds)
    (hneg : p.price < 0) (hconf : 0 < p.confidence) :
    ∀ l : List PriceData, p ∈ l → ∃ s, validate_prices cfg now l = .error (.ParseError s) := by
  intro l
  induction l with
  | nil => intro hm; cases hm
  | cons q rest ih =>
    intro hm
    rw [validate_prices_cons]
    rcases List.mem_cons.mp hm with hm | hm
    · subst hm
      rw [if_neg (not_lt.mpr hfresh), calculate_confidence_bps_of_neg p hneg hconf]
      exact ⟨_, rfl⟩
    · by_cases hstale : now - q.timestamp > cfg.max_price_age_seconds
      · rw [if_pos hstale]
        exact ih hm
      · rw [if_neg hstale]
        cases hc : calculate_confidence_bps q with
        | error e =>
          rcases calculate_confidence_bps_error_is_parse q e hc with ⟨s, hs⟩
          simp only [hc, hs]
          exact ⟨s, rfl⟩
        | ok cbps =>
          simp only [hc]
          by_cases hhi : cbps > cfg.max_confidence_bps
          · rw [if_pos hhi]
            exact ih hm
          · rw [if_neg hhi]
            rcases ih hm with ⟨s, hs⟩
            simp only [hs]
            exact ⟨s, rfl⟩

/-- C8: a reading whose price is 0 gets `confidence_bps = 0` from
`calculate_confidence_bps` regardless of its confidence value, and (being 0,
never above the `u64` bound `max_confidence_bps`) such a reading is never
discarded by the confidence check of `validate_prices` for any configuration,
as long as it is fresh enough to reach that check. -/
theorem zero_price_confidence_bps (p : PriceData) (hzero : p.price = 0) :
    calculate_confidence_bps p = .ok 0 ∧
    ∀ cfg : OracleConfig, ∀ now : ℤ, now - p.timestamp ≤ cfg.max_price_age_seconds →
      validate_prices cfg now [p] = .ok [p] := by
  have hc : calculate_confidence_bps p = .ok 0 := by
    unfold calculate_confidence_bps
    rw [if_pos hzero]
  refine ⟨hc, fun cfg now hfresh => ?_⟩
  rw [validate_prices_cons, if_neg (not_lt.mpr hfresh)]
  simp only [hc]
  rw [if_neg (Nat.not_lt_zero _)]
  rfl

/-- Witness for C8 at the concrete reading `readingZ` (price 0, confidence 5)
under the default configuration. -/
theorem zero_price_confidence_bps_witness :
    calculate_confidence_bps readingZ = .ok 0 ∧
    validate_prices cfgW 1000 [readingZ] = .ok [readingZ] :=
  ⟨(zero_price_confidence_bps readingZ rfl).1,
   (zero_price_confidence_bps readingZ rfl).2 cfgW 1000 (by decide)⟩

/-- C9 (implicit): when the consensus price is zero, `calculate_deviation`
returns 0 for every oracle price (no division occurs), so `validate_consensus`
succeeds for every list of surviving readings and every threshold. -/
theorem zero_consensus_deviation_trivial (cfg : OracleConfig) (prices : List PriceData)
    (consensus : PriceData) (hzero : consensus.price = 0) :
    (∀ q : ℚ, calculate_deviation q consensus.price = .ok 0) ∧
    validate_consensus cfg prices consensus = .ok () := by
  have hdev : ∀ q : ℚ, calculate_deviation q consensus.price = .ok 0 := by
    intro q
    unfold calculate_deviation
    rw [hzero, if_pos rfl]
  refine ⟨hdev, ?_⟩
  induction prices with
  | nil => rfl
  | cons p rest ih =>
    rw [validate_consensus_cons]
    simp only [hdev p.price]
    rw [if_neg (Nat.not_lt_zero _)]
    exact ih

/-- Witness for C9 at a zero-price consensus over the far-away reading
`readingW` (price 50000) under the default configuration. -/
theorem zero_consensus_deviation_trivial_witness :
    (∀ q : ℚ, calculate_deviation q readingZ.price = .ok 0) ∧
    validate_consensus cfgW [readingW] readingZ = .ok () :=
  zero_consensus_deviation_trivial cfgW [readingW] readingZ rfl

/-- C7: when at least one oracle returned a reading but every returned reading
is stale, `get_consensus_price` fails with `NoPriceData` (the empty-survivors
branch), not with `StalePrice`. -/
theorem all_stale_yields_no_price_data (cfg : OracleConfig) (now : ℤ) (symbol : String)
    (pythRes sbRes : Except OracleError PriceData)
    (hne : oracle_results pythRes sbRes ≠ [])
    (hstale : ∀ q ∈ oracle_results pythRes sbRes,
      now - q.timestamp > cfg.max_price_age_seconds) :
    get_consensus_price cfg now symbol pythRes sbRes =
      .error (.NoPriceData ("No valid prices after validation for " ++ symbol)) := by
  unfold get_consensus_price
  rw [if_neg (by simpa [List.isEmpty_iff] using hne)]
  simp only [validate_prices_all_stale cfg now _ hstale]
  rfl

/-- Witness for C7: a stale Pyth reading together with a failed Switchboard
fetch, under the default configuration at `now = 1000`. -/
theorem all_stale_yields_no_price_data_witness :
    get_consensus_price cfgW 1000 ("BTC/USD") (.ok readingStale)
        (.error (.SolanaError ("rpc down"))) =
      .error (.NoPriceData ("No valid prices after validation for " ++ "BTC/USD")) :=
  all_stale_yields_no_price_data cfgW 1000 ("BTC/USD") (.ok readingStale)
    (.error (.SolanaError ("rpc down"))) (by decide) (by decide)

/-- C10 (implicit): a fetched, non-stale reading with a strictly negative price
and strictly positive confidence makes the confidence ratio negative, whose
`to_u64` conversion fails, so `validate_prices` returns `ParseError` and
`get_consensus_price` fails for the entire batch instead of just discarding
the offending reading. -/
theorem negative_price_fails_batch (cfg : OracleConfig) (now : ℤ) (symbol : String)
    (pythRes sbRes : Except OracleError PriceData) (p : PriceData)
    (hmem : p ∈ oracle_results pythRes sbRes)
    (hfresh : now - p.timestamp ≤ cfg.max_price_age_seconds)
    (hneg : p.price < 0) (hconf : 0 < p.confidence) :
    (∃ s, validate_prices cfg now (oracle_results pythRes sbRes) =
      .error (.ParseError s)) ∧
    (∃ s, get_consensus_price cfg now symbol pythRes sbRes =
      .error (.ParseError s)) := by
  rcases validate_prices_parse_of_neg cfg now p hfresh hneg hconf _ hmem with ⟨s, hs⟩
  refine ⟨⟨s, hs⟩, s, ?_⟩
  unfold get_consensus_price
  rw [if_neg (by simpa [List.isEmpty_iff] using List.ne_nil_of_mem hmem)]
  simp only [hs]

/-- Witness for C10: a fresh negative-price Switchboard reading next to a good
Pyth reading, under the default configuration at `now = 1000`. -/
theorem negative_price_fails_batch_witness :
    (∃ s, validate_prices cfgW 1000 (oracle_results (.ok readingW) (.ok readingNeg)) =
      .error (.ParseError s)) ∧
    (∃ s, get_consensus_price cfgW 1000 ("BTC/USD") (.ok readingW) (.ok readingNeg) =
      .error (.ParseError s)) :=
  negative_price_fails_batch cfgW 1000 ("BTC/USD") (.ok readingW) (.ok readingNeg)
    readingNeg (by decide) (by decide) (by decide) (by decide)

theorem confidence_bps_evalW : calculate_confidence_bps readingW = .ok 2 :=
  calculate_confidence_bps_eq readingW 2 (by norm_num [readingW])
    (by norm_num [readingW]) (by norm_num [readingW]) (by norm_num)

theorem confidence_bps_evalW2 : calculate_confidence_bps readingW2 = .ok 1 :=
  calculate_confidence_bps_eq readingW2 1 (by norm_num [readingW2])
    (by norm_num [readingW2]) (by norm_num [readingW2]) (by norm_num)

theorem validate_prices_evalW :
    validate_prices cfgW 1000 [readingW, readingW2] = .ok [readingW, readingW2] := by
  rw [validate_prices_cons, if_neg (by decide)]
  simp only [confidence_bps_evalW]
  rw [if_neg (by decide)]
  rw [validate_prices_cons, if_neg (by decide)]
  simp only [confidence_bps_evalW2]
  rw [if_neg (by decide)]
  rfl

theorem calculate_consensus_evalW :
    calculate_consensus [readingW, readingW2] = .ok consensusW := by
  have hsort : List.insertionSort priceLe [readingW, readingW2] = [readingW, readingW2] := by
    norm_num [List.insertionSort, List.orderedInsert, priceLe, readingW, readingW2]
  unfold calculate_consensus
  simp only [hsort]
  norm_num [readingW, readingW2, consensusW, latest_timestamp, List.max?]

theorem deviation_evalW : calculate_deviation readingW.price consensusW.price = .ok 9 :=
  calculate_deviation_eq readingW.price consensusW.price 9
    (by norm_num [readingW, consensusW]) (by norm_num [readingW, consensusW])
    (by norm_num [readingW, consensusW]) (by norm_num)

theorem deviation_evalW2 : calculate_deviation readingW2.price consensusW.price = .ok 9 :=
  calculate_deviation_eq readingW2.price consensusW.price 9
    (by norm_num [readingW2, consensusW]) (by norm_num [readingW2, consensusW])
    (by norm_num [readingW2, consensusW]) (by norm_num)

theorem validate_consensus_evalW :
    validate_consensus cfgW [readingW, readingW2] consensusW = .ok () := by
  rw [validate_consensus_cons]
  simp only [deviation_evalW]
  rw [if_neg (by decide)]
  rw [validate_consensus_cons]
  simp only [deviation_evalW2]
  rw [if_neg (by decide)]
  rfl

theorem get_consensus_price_evalW :
    get_consensus_price cfgW 1000 ("BTC/USD") (.ok readingW) (.ok readingW2) =
      .ok consensusW := by
  have hor : oracle_results (.ok readingW) (.ok readingW2) = [readingW, readingW2] := rfl
  simp only [get_consensus_price, hor]
  rw [if_neg (by decide)]
  simp only [validate_prices_evalW]
  rw [if_neg (by decide)]
  simp only [calculate_consensus_evalW, validate_consensus_evalW]

/-- C1: every consensus returned by `get_consensus_price` satisfies the
deviation gate: all surviving readings deviate (in the integer basis points
computed by `calculate_deviation`) at most `max_deviation_bps` from the
consensus; and conversely when some surviving reading's computed deviation
exceeds the bound, the call fails with `PriceDeviation` instead of returning a
reading. -/
theorem consensus_deviation_gate (cfg : OracleConfig) (now : ℤ) (symbol : String)
    (pythRes sbRes : Except OracleError PriceData) :
    (∀ r, get_consensus_price cfg now symbol pythRes sbRes = .ok r →
      ∀ valid, validate_prices cfg now (oracle_results pythRes sbRes) = .ok valid →
        ∀ S ∈ valid, ∃ d, calculate_deviation S.price r.price = .ok d ∧
          d ≤ cfg.max_deviation_bps) ∧
    (∀ valid cons, validate_prices cfg now (oracle_results pythRes sbRes) = .ok valid →
      calculate_consensus valid = .ok cons →
      (∀ S ∈ valid, ∃ d, calculate_deviation S.price cons.price = .ok d) →
      (∃ S ∈ valid, ∃ d, calculate_deviation S.price cons.price = .ok d ∧
        cfg.max_deviation_bps < d) →
      ∃ s, get_consensus_price cfg now symbol pythRes sbRes =
        .error (.PriceDeviation s)) := by
  constructor
  · intro r hok valid hv S hS
    rcases get_consensus_price_ok_inv cfg now symbol pythRes sbRes r hok with
      ⟨valid', hv', _, _, hvc'⟩
    rw [hv] at hv'
    cases hv'
    exact validate_consensus_ok_bound cfg r valid hvc' S hS
  · intro valid cons hv hc hall hex
    rcases validate_consensus_exceeded cfg cons valid hall hex with ⟨s, hs⟩
    have hvne : valid ≠ [] := by
      rcases hex with ⟨S, hS, _⟩
      exact List.ne_nil_of_mem hS
    have hone : ¬ (oracle_results pythRes sbRes).isEmpty = true := by
      rcases hex with ⟨S, hS, _⟩
      have hmem := validate_prices_subset cfg now _ valid hv S hS
      simpa [List.isEmpty_iff] using List.ne_nil_of_mem hmem
    refine ⟨s, ?_⟩
    unfold get_consensus_price
    rw [if_neg hone]
    simp only [hv]
    rw [if_neg (by simpa [List.isEmpty_iff] using hvne)]
    simp only [hc, hs]

/-- Witness for C1 (first half) at the concrete run of `get_consensus_price`
on `readingW` and `readingW2`: both surviving readings deviate 9 bps ≤ 100 bps
from `consensusW`. -/
theorem consensus_deviation_gate_witness :
    ∃ d, calculate_deviation readingW.price consensusW.price = .ok d ∧
      d ≤ cfgW.max_deviation_bps :=
  (consensus_deviation_gate cfgW 1000 ("BTC/USD") (.ok readingW) (.ok readingW2)).1
    consensusW get_consensus_price_evalW [readingW, readingW2] validate_prices_evalW
    readingW (List.mem_cons_self _ _)

/-- C5: every validation threshold is inclusive: age exactly at
`max_price_age_seconds` passes while one more second fails; `confidence_bps`
exactly at `max_confidence_bps` passes while one more fails; a deviation
exactly at `max_deviation_bps` passes the gate while one more bps fails with
`PriceDeviation`. -/
theorem validation_thresholds_inclusive (cfg : OracleConfig) (now : ℤ)
    (p : PriceData) (cons : PriceData) :
    (now - p.timestamp = cfg.max_price_age_seconds →
      ∀ c, calculate_confidence_bps p = .ok c → c ≤ cfg.max_confidence_bps →
        validate_prices cfg now [p] = .ok [p]) ∧
    (now - p.timestamp = cfg.max_price_age_seconds + 1 →
      validate_prices cfg now [p] = .ok []) ∧
    (now - p.timestamp ≤ cfg.max_price_age_seconds →
      calculate_confidence_bps p = .ok cfg.max_confidence_bps →
      validate_prices cfg now [p] = .ok [p]) ∧
    (now - p.timestamp ≤ cfg.max_price_age_seconds →
      calculate_confidence_bps p = .ok (cfg.max_confidence_bps + 1) →
      validate_prices cfg now [p] = .ok []) ∧
    (calculate_deviation p.price cons.price = .ok cfg.max_deviation_bps →
      validate_consensus cfg [p] cons = .ok ()) ∧
    (calculate_deviation p.price cons.price = .ok (cfg.max_deviation_bps + 1) →
      ∃ s, validate_consensus cfg [p] cons = .error (.PriceDeviation s)) := by
  refine ⟨?_, ?_, ?_, ?_, ?_, ?_⟩
  · intro hage c hc hle
    rw [validate_prices_cons, if_neg (by rw [hage]; exact lt_irrefl _)]
    simp only [hc]
    rw [if_neg (not_lt.mpr hle)]
    rfl
  · intro hage
    rw [validate_prices_cons, if_pos (by rw [hage]; exact lt_add_one _)]
    rfl
  · intro hfresh hc
    rw [validate_prices_cons, if_neg (not_lt.mpr hfresh)]
    simp only [hc]
    rw [if_neg (lt_irrefl _)]
    rfl
  · intro hfresh hc
    rw [validate_prices_cons, if_neg (not_lt.mpr hfresh)]
    simp only [hc]
    rw [if_pos (Nat.lt_succ_self _)]
    rfl
  · intro hd
    rw [validate_consensus_cons]
    simp only [hd]
    rw [if_neg (lt_irrefl _)]
    rfl
  · intro hd
    rw [validate_consensus_cons]
    simp only [hd]
    rw [if_pos (Nat.lt_succ_self _)]
    exact ⟨_, rfl⟩

/-- Witness for C5: each boundary exercised at a concrete reading under the
default configuration (`30` s, `100` bps, `100` bps) at `now = 1000`:
age 30 kept, age 31 dropped, confidence 100 bps kept, 101 bps dropped,
deviation 100 bps passes, 101 bps fails. -/
theorem validation_thresholds_inclusive_witness :
    validate_prices cfgW 1000 [readingAge] = .ok [readingAge] ∧
    validate_prices cfgW 1000 [readingAge1] = .ok [] ∧
    validate_prices cfgW 1000 [readingConfMax] = .ok [readingConfMax] ∧
    validate_prices cfgW 1000 [readingConfOver] = .ok [] ∧
    validate_consensus cfgW [readingDevMax] consDev = .ok () ∧
    ∃ s, validate_consensus cfgW [readingDevOver] consDev =
      .error (.PriceDeviation s) := by
  have hcAge : calculate_confidence_bps readingAge = .ok 100 :=
    calculate_confidence_bps_eq readingAge 100 (by norm_num [readingAge])
      (by norm_num [readingAge]) (by norm_num [readingAge]) (by norm_num)
  have hcMax : calculate_confidence_bps readingConfMax = .ok 100 :=
    calculate_confidence_bps_eq readingConfMax 100 (by norm_num [readingConfMax])
      (by norm_num [readingConfMax]) (by norm_num [readingConfMax]) (by norm_num)
  have hcOver : calculate_confidence_bps readingConfOver = .ok 101 :=
    calculate_confidence_bps_eq readingConfOver 101 (by norm_num [readingConfOver])
      (by norm_num [readingConfOver]) (by norm_num [readingConfOver]) (by norm_num)
  have hdMax : calculate_deviation readingDevMax.price consDev.price = .ok 100 :=
    calculate_deviation_eq readingDevMax.price consDev.price 100
      (by norm_num [readingDevMax, consDev]) (by norm_num [readingDevMax, consDev])
      (by norm_num [readingDevMax, consDev]) (by norm_num)
  have hdOver : calculate_deviation readingDevOver.price consDev.price = .ok 101 :=
    calculate_deviation_eq readingDevOver.price consDev.price 101
      (by norm_num [readingDevOver, consDev]) (by norm_num [readingDevOver, consDev])
      (by norm_num [readingDevOver, consDev]) (by norm_num)
  exact ⟨(validation_thresholds_inclusive cfgW 1000 readingAge consDev).1
           (by decide) 100 hcAge (by decide),
         (validation_thresholds_inclusive cfgW 1000 readingAge1 consDev).2.1 (by decide),
         (validation_thresholds_inclusive cfgW 1000 readingConfMax consDev).2.2.1
           (by decide) hcMax,
         (validation_thresholds_inclusive cfgW 1000 readingConfOver consDev).2.2.2.1
           (by decide) hcOver,
         (validation_thresholds_inclusive cfgW 1000 readingDevMax consDev).2.2.2.2.1 hdMax,
         (validation_thresholds_inclusive cfgW 1000 readingDevOver consDev).2.2.2.2.2 hdOver⟩

/-- C6: a successful `get_consensus_price` returns a reading with source
`Aggregate`, the query symbol (every fetched reading carries the query symbol,
as the Pyth and Switchboard clients construct them), and the maximum timestamp
among the readings that survived validation. -/
theorem consensus_metadata (cfg : OracleConfig) (now : ℤ) (symbol : String)
    (pythRes sbRes : Except OracleError PriceData) (r : PriceData)
    (hsym : ∀ q ∈ oracle_results pythRes sbRes, q.symbol = symbol)
    (hok : get_consensus_price cfg now symbol pythRes sbRes = .ok r) :
    r.source = PriceSource.Aggregate ∧ r.symbol = symbol ∧
    ∃ valid, validate_prices cfg now (oracle_results pythRes sbRes) = .ok valid ∧
      r.timestamp ∈ valid.map (fun p => p.timestamp) ∧
      ∀ t ∈ valid.map (fun p => p.timestamp), t ≤ r.timestamp := by
  rcases get_consensus_price_ok_inv cfg now symbol pythRes sbRes r hok with
    ⟨valid, hv, hvne, hc, _⟩
  rcases calculate_consensus_ok_inv valid r hc with ⟨hne, hsrc, hts, p0, t, hval, hsymb⟩
  refine ⟨hsrc, ?_, valid, hv, ?_, ?_⟩
  · have hp0 : p0 ∈ valid := hval ▸ List.mem_cons_self _ _
    have hp0or := validate_prices_subset cfg now _ valid hv p0 hp0
    rw [hsymb, hsym p0 hp0or]
  · rw [hts]
    exact (latest_timestamp_spec valid hne).1
  · rw [hts]
    exact (latest_timestamp_spec valid hne).2

/-- Witness for C6 at the concrete run on `readingW` and `readingW2`. -/
theorem consensus_metadata_witness :
    consensusW.source = PriceSource.Aggregate ∧ consensusW.symbol = "BTC/USD" ∧
    ∃ valid, validate_prices cfgW 1000
        (oracle_results (.ok readingW) (.ok readingW2)) = .ok valid ∧
      consensusW.timestamp ∈ valid.map (fun p => p.timestamp) ∧
      ∀ t ∈ valid.map (fun p => p.timestamp), t ≤ consensusW.timestamp :=
  consensus_metadata cfgW 1000 ("BTC/USD") (.ok readingW) (.ok readingW2) consensusW
    (by decide) get_consensus_price_evalW

/-- Counterexample to C3: with a cache-backend error on the initial read, the
request fails with that error and the producer is never invoked (the claim
says the error degrades to a miss and the producer still runs); with a
backend error on the cache write after a successful produce, the request fails
instead of returning the produced reading. -/
theorem cache_error_not_swallowed_cex :
    (get_price_with_cache (.error (.RedisError ("connection refused"))) (.ok readingW)
        (fun _ => .ok ())).2 = false ∧
    (get_price_with_cache (.error (.RedisError ("connection refused"))) (.ok readingW)
        (fun _ => .ok ())).1 ≠ .ok readingW ∧
    (get_price_with_cache (.ok none) (.ok readingW)
        (fun _ => .error (.RedisError ("io error")))).1 ≠ .ok readingW := by
  refine ⟨rfl, ?_, ?_⟩ <;> decide

/-- C3 amended: cache backend errors propagate out of `get_price_with_cache`:
an error on the initial cache read fails the request without invoking the
producer, and an error on the cache write after a successful produce fails the
request even though a reading was produced. -/
theorem cache_error_propagates (e e2 : OracleError) (p : PriceData)
    (fetchRes : Except OracleError PriceData)
    (writeRes : PriceData → Except OracleError Unit) :
    get_price_with_cache (.error e) fetchRes writeRes = (.error e, false) ∧
    get_price_with_cache (.ok none) (.ok p) (fun _ => .error e2) = (.error e2, true) :=
  ⟨rfl, rfl⟩

/-- C4 evaluated at the failing schedule: two serialized `get_price_with_cache`
calls for the same symbol on a cold cache whose producer fails invoke the
producer twice — not at most once as single-flight would require. -/
theorem single_flight_violation_eval :
    fetch_invocations_two_calls (.error (.SolanaError ("rpc down")))
        (.error (.SolanaError ("rpc down"))) = 2 ∧
    ¬ fetch_invocations_two_calls (.error (.SolanaError ("rpc down")))
        (.error (.SolanaError ("rpc down"))) ≤ 1 := by
  exact ⟨rfl, by decide⟩

theorem getD_irrel {α : Type} (l : List α) (n : ℕ) (d₁ d₂ : α) (h : n < l.length) :
    l.getD n d₁ = l.getD n d₂ := by
  induction l generalizing n with
  | nil => simp at h
  | cons a t ih =>
    cases n with
    | zero => rfl
    | succ m =>
      simp only [List.getD_cons_succ]
      exact ih m (Nat.lt_of_succ_lt_succ h)

theorem eq_of_perm_of_map_eq_of_nodup {α β : Type} (f : α → β) :
    ∀ (l₁ l₂ : List α), l₁.Perm l₂ → l₁.map f = l₂.map f → (l₁.map f).Nodup →
      l₁ = l₂ := by
  intro l₁
  induction l₁ with
  | nil =>
    intro l₂ hp _ _
    exact hp.nil_eq
  | cons a t ih =>
    intro l₂ hp hmap hnd
    cases l₂ with
    | nil =>
      have := hp.length_eq
      simp at this
    | cons b t₂ =>
      simp only [List.map_cons, List.cons.injEq] at hmap
      obtain ⟨hfab, hmapt⟩ := hmap
      simp only [List.map_cons, List.nodup_cons] at hnd
      obtain ⟨hfa_not, hndt⟩ := hnd
      have hab : a = b := by
        have hmem : a ∈ b :: t₂ := hp.subset (List.mem_cons_self _ _)
        rcases List.mem_cons.mp hmem with h | h
        · exact h
        · exfalso
          apply hfa_not
          rw [hmapt]
          exact List.mem_map_of_mem f h
      subst hab
      have hpt : t.Perm t₂ := (List.perm_cons a).mp hp
      rw [ih t₂ hpt hmapt hndt]

/-- C2: for a non-empty input with distinct prices, `calculate_consensus`
returns the price and confidence found at index `⌊N/2⌋` of the price-sorted
list when `N` is odd, and the arithmetic means of the entries at sorted
indices `N/2 - 1` and `N/2` when `N` is even — stated against any price-sorted
permutation `sorted_input` of the input. -/
theorem consensus_median_of_sorted (prices sorted_input : List PriceData)
    (p0 : PriceData) (hne : prices ≠ [])
    (hperm : sorted_input.Perm prices)
    (hsorted : sorted_input.Pairwise priceLe)
    (hnodup : (prices.map (fun p => p.price)).Nodup) :
    ∃ c, calculate_consensus prices = .ok c ∧
      ((prices.length % 2 = 1 →
        c.price = (sorted_input.getD (prices.length / 2) p0).price ∧
        c.confidence = (sorted_input.getD (prices.length / 2) p0).confidence) ∧
       (prices.length % 2 = 0 →
        c.price = ((sorted_input.getD (prices.length / 2 - 1) p0).price +
          (sorted_input.getD (prices.length / 2) p0).price) / 2 ∧
        c.confidence = ((sorted_input.getD (prices.length / 2 - 1) p0).confidence +
          (sorted_input.getD (prices.length / 2) p0).confidence) / 2)) := by
  have hsperm := List.perm_insertionSort priceLe prices
  have hssorted : List.Sorted priceLe (List.insertionSort priceLe prices) :=
    List.sorted_insertionSort priceLe prices
  have hperm2 : sorted_input.Perm (List.insertionSort priceLe prices) :=
    hperm.trans hsperm.symm
  have hmapeq : sorted_input.map (fun p => p.price) =
      (List.insertionSort priceLe prices).map (fun p => p.price) := by
    refine List.eq_of_perm_of_sorted (r := ((· ≤ ·) : ℚ → ℚ → Prop))
      (hperm2.map _) ?_ ?_
    · exact List.pairwise_map.mpr (hsorted.imp (fun h => h))
    · exact List.pairwise_map.mpr (hssorted.imp (fun h => h))
  have hnodup2 : (sorted_input.map (fun p => p.price)).Nodup :=
    ((hperm.map _).nodup_iff).mpr hnodup
  have heq : sorted_input = List.insertionSort priceLe prices :=
    eq_of_perm_of_map_eq_of_nodup (fun p => p.price) sorted_input _ hperm2 hmapeq hnodup2
  have hlen : (List.insertionSort priceLe prices).length = prices.length :=
    hsperm.length_eq
  subst heq
  obtain ⟨q0, t, rfl⟩ := List.exists_cons_of_ne_nil hne
  refine ⟨_, rfl, ?_, ?_⟩
  · intro hodd
    have hlt : (q0 :: t).length / 2 < (List.insertionSort priceLe (q0 :: t)).length := by
      rw [hlen]
      exact Nat.div_lt_self (Nat.succ_pos _) one_lt_two
    simp only [hlen]
    rw [if_pos hodd]
    rw [getD_irrel _ _ q0 p0 hlt]
    exact ⟨rfl, rfl⟩
  · intro heven
    have hlt : (q0 :: t).length / 2 < (List.insertionSort priceLe (q0 :: t)).length := by
      rw [hlen]
      exact Nat.div_lt_self (Nat.succ_pos _) one_lt_two
    have hlt2 : (q0 :: t).length / 2 - 1 < (List.insertionSort priceLe (q0 :: t)).length := by
      rw [hlen]
      exact lt_of_le_of_lt (Nat.sub_le _ _) (Nat.div_lt_self (Nat.succ_pos _) one_lt_two)
    simp only [hlen]
    rw [if_neg (by rw [heven]; decide)]
    rw [getD_irrel _ _ q0 p0 hlt, getD_irrel _ _ q0 p0 hlt2]
    exact ⟨rfl, rfl⟩

/-- Witness for C2: the two-element unsorted input `[readingW2, readingW]`
against its sorted permutation `[readingW, readingW2]`. -/
theorem consensus_median_of_sorted_witness :
    ∃ c, calculate_consensus [readingW2, readingW] = .ok c ∧
      (([readingW2, readingW] : List PriceData).length % 2 = 1 →
        c.price = ([readingW, readingW2].getD
          (([readingW2, readingW] : List PriceData).length / 2) readingW).price ∧
        c.confidence = ([readingW, readingW2].getD
          (([readingW2, readingW] : List PriceData).length / 2) readingW).confidence) ∧
      (([readingW2, readingW] : List PriceData).length % 2 = 0 →
        c.price = (([readingW, readingW2].getD
            (([readingW2, readingW] : List PriceData).length / 2 - 1) readingW).price +
          ([readingW, readingW2].getD
            (([readingW2, readingW] : List PriceData).length / 2) readingW).price) / 2 ∧
        c.confidence = (([readingW, readingW2].getD
            (([readingW2, readingW] : List PriceData).length / 2 - 1) readingW).confidence +
          ([readingW, readingW2].getD
            (([readingW2, readingW] : List PriceData).length / 2) readingW).confidence) / 2) :=
  consensus_median_of_sorted [readingW2, readingW] [readingW, readingW2] readingW
    (by decide) (List.Perm.swap readingW2 readingW []) (by decide) (by decide)

end Oracle
